import Mathlib

/-!
Verification development for the contact_map analysis code
(contact_map/contact_map.py).

The Python code is shallowly embedded: atom and residue indices are `Int`
(Python integers), Python `set`/`frozenset` values are `Finset Int`, an
unordered atom- or residue-pair (a `frozenset` of two indices) is the
`Finset Int` holding its elements, and a `collections.Counter` is an
insertion-ordered association list `List (Finset Int × ℚ)` (ℚ covers both
the integer tallies and the float frequencies, whose arithmetic here is
exact). External collaborators (mdtraj) are abstracted: a topology is a
record of its index relationships, and `md.compute_neighborlist` is an
arbitrary function from atom index to candidate-neighbor list.
-/

/-- Abstraction of an mdtraj `Topology` object: only the index
relationships the analysis code reads.
`atomResidue a` embeds `topology.atom(a).residue.index`;
`residueAtoms r` embeds `[atom.index for atom in topology.residue(r).atoms]`;
`residueChain r` embeds

`[res.index for res in topology.residue(r).chain.residues]`. -/
structure Topology where
  n_atoms : Int
  n_residues : Int
  atomResidue : Int → Int
  residueAtoms : Int → List Int
  residueChain : Int → List Int

/-- Embeds `residue_neighborhood(residue, n)`:
`set([residue.index+i for i in range(-n, n+1)])` intersected with the set
of residue indices of `residue`'s chain (the Python list comprehension
filters the neighborhood by chain membership; the result is consumed only
as a set downstream). -/
def residue_neighborhood (residue : Int) (chain : List Int) (n : Nat) : Finset Int :=
  ((Finset.range (2 * n + 1)).image (fun i : Nat => residue + (i : Int) - (n : Int))) ∩ chain.toFinset

/-- Embeds the state stored by `ContactObject.__init__`: topology, the
query and haystack atom-index sets, the cutoff and the number of
neighboring residues ignored. -/
structure ContactObject where
  topology : Topology
  query : Finset Int
  haystack : Finset Int
  cutoff : ℚ
  n_neighbors_ignored : Nat

/-- Embeds `ContactObject.__init__(topology, query, haystack, cutoff,
n_neighbors_ignored)` with explicit query/haystack arguments. The Python
body contains no `raise` statement and no validation: it only stores the
parameters (plus the derived atom-to-residue dict, which is a read-only
view of the topology), so the embedding always returns `.ok`. -/
def ContactObject.init (topology : Topology) (query haystack : Finset Int)
    (cutoff : ℚ) (n_neighbors_ignored : Nat) : Except String ContactObject :=
  .ok { topology := topology, query := query, haystack := haystack,
        cutoff := cutoff, n_neighbors_ignored := n_neighbors_ignored }

/-- The key set of the dict built by `ContactObject.residue_query_atom_idxs`:
the residue indices owning at least one query atom. -/
def ContactObject.queryResidues (c : ContactObject) : Finset Int :=
  c.query.image c.topology.atomResidue

/-- The value `residue_query_atom_idxs[r]` as a set: the query atoms whose
owning residue has index `r` (the Python dict groups `self._query` by
`self.topology.atom(atom_idx).residue.index`; list order is irrelevant
downstream, where the list is only iterated). -/
def ContactObject.residueQueryAtoms (c : ContactObject) (r : Int) : Finset Int :=
  c.query.filter (fun a => c.topology.atomResidue a = r)

/-- The value `residue_ignore_atom_idxs[r]`: the union of the atom-index
sets of all residues in `residue_neighborhood(residue(r),
n_neighbors_ignored)`. -/
def ContactObject.residueIgnoreAtoms (c : ContactObject) (r : Int) : Finset Int :=
  (residue_neighborhood r (c.topology.residueChain r) c.n_neighbors_ignored).biUnion
    (fun res => (c.topology.residueAtoms res).toFinset)

/-- The inner computation of `ContactObject.contact_map` for one query atom
`a` of residue `r`:
`contact_neighbors = (set(neighborlist[a]) - ignore_atom_idxs) & self._haystack`. -/
def ContactObject.contactNeighbors (c : ContactObject) (neighborlist : Int → List Int)
    (r a : Int) : Finset Int :=
  ((neighborlist a).toFinset \ c.residueIgnoreAtoms r) ∩ c.haystack

/-- Embeds `ContactObject.contact_map(trajectory, frame_number, ...)` for
one frame, the frame being represented by its neighbor-candidate lists
`neighborlist` (the output of `md.compute_neighborlist(trajectory, cutoff,
frame_number)`). Returns the set of atom-pair contacts and the set of
residue-pair contacts; the Python `Counter(contact_pairs)` over a set just
maps each member to count 1, so the sets carry the full information. -/
def ContactObject.contact_map (c : ContactObject) (neighborlist : Int → List Int) :
    Finset (Finset Int) × Finset (Finset Int) :=
  (c.queryResidues.biUnion (fun r =>
      (c.residueQueryAtoms r).biUnion (fun a =>
        (c.contactNeighbors neighborlist r a).image (fun b => ({a, b} : Finset Int)))),
   c.queryResidues.biUnion (fun r =>
      (c.residueQueryAtoms r).biUnion (fun a =>
        ((c.contactNeighbors neighborlist r a).image c.topology.atomResidue).image
          (fun pr => ({r, pr} : Finset Int)))))

section CounterModel

/-- Embeds `counter.get(k, 0)` / `counter[k]` for a `collections.Counter`
represented as its insertion-ordered item list (dict keys are unique, so
the first match is the value). -/
def counterGet (c : List (Finset Int × ℚ)) (k : Finset Int) : ℚ :=
  match c.find? (fun e => e.1 = k) with
  | some e => e.2
  | none => 0

/-- The key list of a counter. -/
def counterKeys (c : List (Finset Int × ℚ)) : List (Finset Int) :=
  c.map Prod.fst

/-- Dict assignment `counter[k] = v`: overwrite in place when the key exists,
append otherwise. -/
def counterSet (c : List (Finset Int × ℚ)) (k : Finset Int) (v : ℚ) :
    List (Finset Int × ℚ) :=
  if c.any (fun e => e.1 = k) then
    c.map (fun e => if e.1 = k then (k, v) else e)
  else
    c ++ [(k, v)]

/-- Embeds `Counter.subtract`: for each key of `neg` in order,
`pos[k] = pos.get(k, 0) - neg[k]` (keys missing from `pos` are added,
keys whose difference is zero or negative are kept). -/
def counterSubtract (pos neg : List (Finset Int × ℚ)) : List (Finset Int × ℚ) :=
  neg.foldl (fun acc e => counterSet acc e.1 (counterGet acc e.1 - e.2)) pos

end CounterModel

section ContactCountModel

/-- Stable descending insertion by weight: `insertDesc x s` places `x`
before the first element of `s` whose weight is not greater than `x`'s.
Folding it from the right implements a stable sort by descending weight,
which is the specification of CPython's
`sorted(self.items(), key=itemgetter(1), reverse=True)`
(`sorted` is stable, and `reverse=True` keeps equal elements in their
original, i.e. insertion, order). -/
def insertDesc (x : Finset Int × ℚ) : List (Finset Int × ℚ) → List (Finset Int × ℚ)
  | [] => [x]
  | y :: ys => if x.2 < y.2 then y :: insertDesc x ys else x :: y :: ys

/-- Embeds `ContactCount.most_common_idx`, i.e. `Counter.most_common()`:
the items of the counter stably sorted by descending weight. -/
def most_common_idx (c : List (Finset Int × ℚ)) : List (Finset Int × ℚ) :=
  c.foldr insertDesc []

/-- Embeds `ContactCount.most_common(obj)` with `obj` given: filter
`most_common_idx` to the entries whose pair contains `obj.index`, then
resolve each index through `object_f`. Iteration over the `frozenset`
`common[0]` is determinized by sorting its two elements (the Python
iteration order is unspecified and never observed by the claims). -/
def most_common_with_obj {α : Type} (object_f : Int → α) (c : List (Finset Int × ℚ))
    (obj_idx : Int) : List (List α × ℚ) :=
  ((most_common_idx c).filter (fun e => obj_idx ∈ e.1)).map
    (fun e => ((e.1.sort (fun a b => a ≤ b)).map object_f, e.2))

/-- Embeds `ContactCount.most_common()` with `obj is None`: every entry of
`most_common_idx`, indices resolved through `object_f`. -/
def most_common_no_obj {α : Type} (object_f : Int → α) (c : List (Finset Int × ℚ)) :
    List (List α × ℚ) :=
  (most_common_idx c).map (fun e => ((e.1.sort (fun a b => a ≤ b)).map object_f, e.2))

/-- One assignment `mtx[x, y] = v` on a DOK sparse matrix represented as a
total function (absent cells are 0). -/
def dokSet (mtx : Int → Int → ℚ) (x y : Int) (v : ℚ) : Int → Int → ℚ :=
  fun i j => if i = x ∧ j = y then v else mtx i j

/-- Embeds `ContactCount.sparse_matrix`: starting from the all-zero
matrix, for each counter item `(k, v)` do `key = list(k)` and assign
`mtx[key[0], key[1]] = v` then `mtx[key[1], key[0]] = v`. `list(k)` is
determinized as the sorted element list (both orders write the same two
cells). A key with fewer or more than two elements makes the Python
`key[1]` lookup raise (or write spurious cells): that is modelled as
`none`. -/
def sparse_matrix (counter : List (Finset Int × ℚ)) : Option (Int → Int → ℚ) :=
  counter.foldlM
    (fun mtx e =>
      match e.1.sort (fun a b => a ≤ b) with
      | [x, y] => some (dokSet (dokSet mtx x y e.2) y x e.2)
      | _ => none)
    (fun _ _ => 0)

end ContactCountModel

section FrequencyModel

/-- Embeds the atom-contact accumulation loop of
`ContactFrequency._build_contact_map`: starting from `Counter([])`, for
each frame number in `frames` add the frame's atom-contact counter (the
indicator of its contact-pair set) via `Counter.update`, which adds
counts pointwise. `neighborlists f` stands for
`md.compute_neighborlist(trajectory, cutoff, f)`. The counter is modelled
by its value function (pair to count); a pair never seen has count 0,
matching `Counter`'s default. -/
def build_atom_tally (c : ContactObject) (neighborlists : Nat → Int → List Int)
    (frames : List Nat) : Finset Int → Nat :=
  frames.foldl
    (fun acc f => fun p =>
      acc p + (if p ∈ (c.contact_map (neighborlists f)).1 then 1 else 0))
    (fun _ => 0)

/-- Embeds the residue-contact accumulation loop of
`ContactFrequency._build_contact_map`: `self._residue_contacts_count +=
frame_residue_contacts`. `Counter.__add__` adds counts pointwise and drops
non-positive results; every entry here is positive, so it is pointwise
addition of the frame indicator, exactly as for the atom counter. -/
def build_residue_tally (c : ContactObject) (neighborlists : Nat → Int → List Int)
    (frames : List Nat) : Finset Int → Nat :=
  frames.foldl
    (fun acc f => fun p =>
      acc p + (if p ∈ (c.contact_map (neighborlists f)).2 then 1 else 0))
    (fun _ => 0)

/-- Embeds the value map of `ContactFrequency.atom_contacts`:
`float(tally[pair]) / self.n_frames` with `n_frames = len(frames)` (a pair
absent from the tally is absent from the built counter, and both lookups
default to 0 = 0 / n_frames). -/
def atom_frequency (c : ContactObject) (neighborlists : Nat → Int → List Int)
    (frames : List Nat) (p : Finset Int) : ℚ :=
  (build_atom_tally c neighborlists frames p : ℚ) / (frames.length : ℚ)

/-- Embeds the value map of `ContactFrequency.residue_contacts`. -/
def residue_frequency (c : ContactObject) (neighborlists : Nat → Int → List Int)
    (frames : List Nat) (p : Finset Int) : ℚ :=
  (build_residue_tally c neighborlists frames p : ℚ) / (frames.length : ℚ)

end FrequencyModel

section DifferenceModel

/-- A built contact object as the difference operation consumes it: its
configuration plus the insertion-ordered counters exposed by its
`atom_contacts.counter` and `residue_contacts.counter` properties. -/
structure ContactData where
  obj : ContactObject
  atomCounter : List (Finset Int × ℚ)
  resCounter : List (Finset Int × ℚ)

/-- Embeds the state of a constructed `ContactDifference`. -/
structure ContactDifference where
  base : ContactObject
  positive : ContactData
  negative : ContactData

/-- Embeds `ContactDifference.__init__(positive, negative)` (reached from
`ContactObject.__sub__`): stores the operands and calls
`ContactObject.__init__` with the positive operand's topology, query,
haystack, cutoff and n_neighbors_ignored. No field of the negative
operand is read and no compatibility check is performed (the code has a
TODO to that effect). -/
def ContactDifference.init (positive negative : ContactData) : ContactDifference :=
  { base := { topology := positive.obj.topology,
              query := positive.obj.query,
              haystack := positive.obj.haystack,
              cutoff := positive.obj.cutoff,
              n_neighbors_ignored := positive.obj.n_neighbors_ignored },
    positive := positive,
    negative := negative }

/-- Embeds `ContactDifference.atom_contacts`:
`diff = Counter(self.positive.atom_contacts.counter)` followed by
`diff.subtract(self.negative.atom_contacts.counter)`. -/
def ContactDifference.atom_contacts (d : ContactDifference) : List (Finset Int × ℚ) :=
  counterSubtract d.positive.atomCounter d.negative.atomCounter

/-- Embeds `ContactDifference.residue_contacts`. -/
def ContactDifference.residue_contacts (d : ContactDifference) : List (Finset Int × ℚ) :=
  counterSubtract d.positive.resCounter d.negative.resCounter

/-- Embeds `ContactDifference.__sub__(other)`: the body is a single
`raise NotImplementedError`, for every argument. -/
def ContactDifference.sub (_ : ContactDifference) (_ : ContactData) :
    Except String ContactDifference :=
  .error "NotImplementedError"

/-- Embeds `ContactDifference.contact_map(*args, **kwargs)`: the body is a
single `raise NotImplementedError`, for every argument. -/
def ContactDifference.contact_map (_ : ContactDifference)
    (_ : Int → List Int) : Except String (Finset (Finset Int) × Finset (Finset Int)) :=
  .error "NotImplementedError"

/-- Whether an `Except` result is a success, i.e. no exception was raised. -/
def exceptOk {ε α : Type} : Except ε α → Bool
  | .ok _ => true
  | .error _ => false

end DifferenceModel

section Examples

/-- A concrete 4-atom, 2-residue, single-chain topology used to exercise
the definitions: atoms 0,1 belong to residue 0; atoms 2,3 to residue 1;
both residues are on the one chain. -/
def exTopology : Topology :=
  { n_atoms := 4, n_residues := 2,
    atomResidue := fun a => if a < 2 then 0 else 1,
    residueAtoms := fun r => if r = 0 then [0, 1] else if r = 1 then [2, 3] else [],
    residueChain := fun _ => [0, 1] }

/-- A concrete analysis configuration over `exTopology`: query atom 0,
haystack atoms 2 and 3, no neighboring residues ignored beyond the
residue itself. -/
def exObj : ContactObject :=
  { topology := exTopology, query := {0}, haystack := {2, 3},
    cutoff := 45 / 100, n_neighbors_ignored := 0 }

/-- A concrete per-frame neighbor-candidate list for `exTopology`: atom 0
is near atoms 1 and 2; atom 2 is near atom 0. -/
def exNl : Int → List Int :=
  fun a => if a = 0 then [1, 2] else if a = 2 then [0] else []

/-- The frame-indexed neighbor lists of a two-frame trajectory whose
frames both look like `exNl`. -/
def exNls : Nat → Int → List Int := fun _ => exNl

/-- A concrete built contact object (positive operand for differences). -/
def exDataP : ContactData :=
  { obj := exObj,
    atomCounter := [({0, 2}, 1), ({1, 3}, 2)],
    resCounter := [({0, 1}, 1)] }

/-- A concrete built contact object (negative operand for differences). -/
def exDataN : ContactData :=
  { obj := exObj,
    atomCounter := [({0, 2}, 3)],
    resCounter := [({0, 1}, 1), ({1, 2}, 4)] }

end Examples

section PairOrder

/-- The smaller element of an unordered index pair (the first index in the
natural first-then-second order on pairs). -/
def pairFirst (p : Finset Int) : WithTop Int := p.min

/-- The larger element of an unordered index pair. -/
def pairSecond (p : Finset Int) : WithBot Int := p.max

/-- Natural pair order: first-then-second index ascending (lexicographic
order on the sorted elements of the two pairs). -/
def pairLexLt (p q : Finset Int) : Bool :=
  if pairFirst p = pairFirst q then pairSecond p < pairSecond q
  else pairFirst p < pairFirst q

/-- Checks the tie-break order the specification asserts for a ranked
list: wherever two consecutive entries carry equal weight, their pairs
must ascend in the natural pair order. -/
def tiesByPairOrder : List (Finset Int × ℚ) → Bool
  | e1 :: e2 :: rest =>
      (if e1.2 = e2.2 then pairLexLt e1.1 e2.1 else true)
        && tiesByPairOrder (e2 :: rest)
  | _ => true

end PairOrder

section CounterLemmas

theorem counterGet_cons (e : Finset Int × ℚ) (c : List (Finset Int × ℚ)) (k : Finset Int) :
    counterGet (e :: c) k = if e.1 = k then e.2 else counterGet c k := by
  simp only [counterGet, List.find?]
  by_cases h : e.1 = k <;> simp [h]

theorem any_key_iff (c : List (Finset Int × ℚ)) (k : Finset Int) :
    (c.any (fun e => e.1 = k)) = true ↔ k ∈ counterKeys c := by
  simp [List.any_eq_true, counterKeys, List.mem_map]

theorem counterGet_eq_zero_of_not_mem (c : List (Finset Int × ℚ)) (k : Finset Int)
    (h : k ∉ counterKeys c) : counterGet c k = 0 := by
  induction c with
  | nil => rfl
  | cons e rest ih =>
    simp only [counterKeys, List.map_cons, List.mem_cons] at h
    push_neg at h
    rw [counterGet_cons, if_neg (fun he => h.1 he.symm), ih h.2]

theorem counterGet_append (c d : List (Finset Int × ℚ)) (k : Finset Int) :
    counterGet (c ++ d) k =
      if k ∈ counterKeys c then counterGet c k else counterGet d k := by
  induction c with
  | nil => simp [counterKeys]
  | cons e rest ih =>
    simp only [counterKeys, List.cons_append, List.map_cons, List.mem_cons]
    rw [counterGet_cons, counterGet_cons, ih]
    by_cases he : e.1 = k
    · rw [if_pos he, if_pos (Or.inl he.symm), if_pos he]
    · rw [if_neg he]
      simp only [counterKeys]
      by_cases hk : k ∈ List.map Prod.fst rest
      · rw [if_pos hk, if_pos (Or.inr hk), if_neg he]
      · rw [if_neg hk, if_neg (by push_neg; exact ⟨fun h => he h.symm, hk⟩)]

theorem counterGet_map_set_ne (c : List (Finset Int × ℚ)) (k k' : Finset Int) (v : ℚ)
    (h : k' ≠ k) :
    counterGet (c.map (fun e => if e.1 = k then (k, v) else e)) k' = counterGet c k' := by
  induction c with
  | nil => rfl
  | cons e rest ih =>
    simp only [List.map_cons]
    rw [counterGet_cons, counterGet_cons]
    by_cases he : e.1 = k
    · simp only [he, if_true]
      rw [if_neg (fun hk : k = k' => h hk.symm), if_neg (fun hk : k = k' => h hk.symm), ih]
    · simp only [he, if_false, ih]

theorem counterGet_map_set_mem (c : List (Finset Int × ℚ)) (k : Finset Int) (v : ℚ)
    (hmem : k ∈ counterKeys c) :
    counterGet (c.map (fun e => if e.1 = k then (k, v) else e)) k = v := by
  induction c with
  | nil => simp [counterKeys] at hmem
  | cons e rest ih =>
    simp only [List.map_cons]
    rw [counterGet_cons]
    by_cases he : e.1 = k
    · simp [he]
    · simp only [he, if_false]
      apply ih
      simp only [counterKeys, List.map_cons, List.mem_cons] at hmem
      rcases hmem with h | h
      · exact absurd h.symm he
      · exact h

theorem counterGet_counterSet (c : List (Finset Int × ℚ)) (k k' : Finset Int) (v : ℚ) :
    counterGet (counterSet c k v) k' = if k' = k then v else counterGet c k' := by
  unfold counterSet
  by_cases hmem : (c.any (fun e => e.1 = k)) = true
  · simp only [hmem, if_true]
    have hk : k ∈ counterKeys c := (any_key_iff c k).mp hmem
    by_cases h : k' = k
    · subst h
      rw [if_pos rfl]
      exact counterGet_map_set_mem c k' v hk
    · rw [counterGet_map_set_ne c k k' v h, if_neg h]
  · rw [if_neg hmem, counterGet_append]
    have hk : k ∉ counterKeys c := fun h => hmem ((any_key_iff c k).mpr h)
    by_cases h : k' = k
    · subst h
      rw [if_neg hk, counterGet_cons, if_pos rfl, if_pos rfl]
    · by_cases hk' : k' ∈ counterKeys c
      · rw [if_pos hk', if_neg h]
      · rw [if_neg hk', counterGet_cons, if_neg (fun he : k = k' => h he.symm),
            counterGet_eq_zero_of_not_mem c k' hk', if_neg h]
        rfl

theorem mem_counterKeys_counterSet (c : List (Finset Int × ℚ)) (k k' : Finset Int) (v : ℚ) :
    k' ∈ counterKeys (counterSet c k v) ↔ k' ∈ counterKeys c ∨ k' = k := by
  unfold counterSet
  by_cases hmem : (c.any (fun e => e.1 = k)) = true
  · simp only [hmem, if_true]
    have hkeys : counterKeys (c.map (fun e => if e.1 = k then (k, v) else e))
        = counterKeys c := by
      simp only [counterKeys, List.map_map]
      congr 1
      funext e
      by_cases h : e.1 = k <;> simp [h]
    rw [hkeys]
    constructor
    · exact Or.inl
    · rintro (h | h)
      · exact h
      · exact h ▸ (any_key_iff c k).mp hmem
  · rw [if_neg hmem]
    simp only [counterKeys, List.map_append, List.mem_append, List.map_cons,
      List.map_nil, List.mem_singleton]

theorem counterSubtract_cons (pos : List (Finset Int × ℚ)) (e : Finset Int × ℚ)
    (rest : List (Finset Int × ℚ)) :
    counterSubtract pos (e :: rest) =
      counterSubtract (counterSet pos e.1 (counterGet pos e.1 - e.2)) rest := rfl

theorem counterGet_counterSubtract (pos neg : List (Finset Int × ℚ))
    (hneg : (counterKeys neg).Nodup) (k : Finset Int) :
    counterGet (counterSubtract pos neg) k = counterGet pos k - counterGet neg k := by
  induction neg generalizing pos with
  | nil => simp [counterSubtract, counterGet]
  | cons e rest ih =>
    simp only [counterKeys, List.map_cons, List.nodup_cons] at hneg
    have hk : e.1 ∉ counterKeys rest := hneg.1
    rw [counterSubtract_cons, ih _ hneg.2, counterGet_counterSet, counterGet_cons]
    by_cases h : k = e.1
    · subst h
      rw [if_pos rfl, if_pos rfl, counterGet_eq_zero_of_not_mem rest _ hk]
      ring
    · rw [if_neg h, if_neg (fun he : e.1 = k => h he.symm)]

theorem mem_counterKeys_counterSubtract (pos neg : List (Finset Int × ℚ)) (k : Finset Int) :
    k ∈ counterKeys (counterSubtract pos neg) ↔
      k ∈ counterKeys pos ∨ k ∈ counterKeys neg := by
  induction neg generalizing pos with
  | nil => simp [counterSubtract, counterKeys]
  | cons e rest ih =>
    rw [counterSubtract_cons, ih, mem_counterKeys_counterSet]
    simp only [counterKeys, List.map_cons, List.mem_cons]
    tauto

end CounterLemmas

section StructuralLemmas

theorem finset_pair_eq_pair_iff (a b c d : Int) :
    ({a, b} : Finset Int) = {c, d} ↔ a = c ∧ b = d ∨ a = d ∧ b = c := by
  rw [← Finset.coe_inj]
  simp only [Finset.coe_insert, Finset.coe_singleton]
  exact Set.pair_eq_pair_iff

theorem sort_pair_of_lt {x y : Int} (h : x < y) :
    ({x, y} : Finset Int).sort (fun a b => a ≤ b) = [x, y] := by
  have h1 : ∀ b ∈ ({y} : Finset Int), x ≤ b := by
    intro b hb
    rw [Finset.mem_singleton] at hb
    exact hb ▸ h.le
  have h2 : x ∉ ({y} : Finset Int) := by
    rw [Finset.mem_singleton]
    exact ne_of_lt h
  calc ({x, y} : Finset Int).sort (fun a b => a ≤ b)
      = x :: ({y} : Finset Int).sort (fun a b => a ≤ b) := Finset.sort_insert _ h1 h2
    _ = [x, y] := by rw [Finset.sort_singleton]

theorem sort_of_card_two {p : Finset Int} (h : p.card = 2) :
    ∃ x y, x < y ∧ p = {x, y} ∧ p.sort (fun a b => a ≤ b) = [x, y] := by
  rcases Finset.card_eq_two.mp h with ⟨a, b, hab, rfl⟩
  rcases lt_or_gt_of_ne hab with hlt | hgt
  · exact ⟨a, b, hlt, rfl, sort_pair_of_lt hlt⟩
  · exact ⟨b, a, hgt, (Finset.pair_comm a b), by rw [Finset.pair_comm a b]; exact sort_pair_of_lt hgt⟩

theorem insertDesc_perm (x : Finset Int × ℚ) (l : List (Finset Int × ℚ)) :
    (insertDesc x l).Perm (x :: l) := by
  induction l with
  | nil => exact List.Perm.refl _
  | cons y ys ih =>
    unfold insertDesc
    by_cases h : x.2 < y.2
    · simp only [h, if_true]
      exact (ih.cons y).trans (List.Perm.swap x y ys)
    · simp only [h, if_false]
      exact List.Perm.refl _

theorem most_common_idx_perm (c : List (Finset Int × ℚ)) :
    (most_common_idx c).Perm c := by
  induction c with
  | nil => exact List.Perm.refl _
  | cons e rest ih =>
    exact (insertDesc_perm e (most_common_idx rest)).trans (ih.cons e)

theorem insertDesc_pairwise (x : Finset Int × ℚ) (l : List (Finset Int × ℚ))
    (h : l.Pairwise (fun a b => b.2 ≤ a.2)) :
    (insertDesc x l).Pairwise (fun a b => b.2 ≤ a.2) := by
  induction l with
  | nil => simp [insertDesc]
  | cons y ys ih =>
    unfold insertDesc
    by_cases hlt : x.2 < y.2
    · simp only [hlt, if_true]
      refine List.Pairwise.cons (fun z hz => ?_) (ih h.tail)
      rcases List.mem_cons.mp ((insertDesc_perm x ys).mem_iff.mp hz) with hzx | hzy
      · exact hzx ▸ hlt.le
      · exact List.rel_of_pairwise_cons h hzy
    · simp only [hlt, if_false]
      push_neg at hlt
      refine List.Pairwise.cons (fun z hz => ?_) h
      rcases List.mem_cons.mp hz with hzy | hzys
      · exact hzy ▸ hlt
      · exact le_trans (List.rel_of_pairwise_cons h hzys) hlt

theorem most_common_idx_pairwise (c : List (Finset Int × ℚ)) :
    (most_common_idx c).Pairwise (fun a b => b.2 ≤ a.2) := by
  induction c with
  | nil => simp [most_common_idx]
  | cons e rest ih => exact insertDesc_pairwise e _ ih

theorem filter_insertDesc (x : Finset Int × ℚ) (l : List (Finset Int × ℚ)) (q : ℚ) :
    (insertDesc x l).filter (fun e => e.2 = q) =
      if x.2 = q then x :: l.filter (fun e => e.2 = q)
      else l.filter (fun e => e.2 = q) := by
  induction l with
  | nil => by_cases h : x.2 = q <;> simp [insertDesc, h]
  | cons y ys ih =>
    unfold insertDesc
    by_cases hlt : x.2 < y.2
    · simp only [hlt, if_true]
      by_cases hx : x.2 = q
      · have hy : ¬ y.2 = q := fun hy => absurd (hx ▸ hy ▸ hlt) (lt_irrefl _)
        rw [List.filter_cons, List.filter_cons, ih]
        simp [hx, hy]
      · simp only [List.filter_cons, ih]
        simp [hx]
    · simp only [hlt, if_false]
      by_cases hx : x.2 = q <;> simp [List.filter_cons, hx]

theorem most_common_idx_stable (c : List (Finset Int × ℚ)) (q : ℚ) :
    (most_common_idx c).filter (fun e => e.2 = q) = c.filter (fun e => e.2 = q) := by
  induction c with
  | nil => rfl
  | cons e rest ih =>
    show (insertDesc e (most_common_idx rest)).filter _ = _
    rw [filter_insertDesc]
    by_cases he : e.2 = q <;> simp [he, List.filter_cons, ih]

theorem counterKeys_cons (e : Finset Int × ℚ) (c : List (Finset Int × ℚ)) :
    counterKeys (e :: c) = e.1 :: counterKeys c := rfl

theorem sparse_matrix_go (counter : List (Finset Int × ℚ)) (init : Int → Int → ℚ)
    (hnd : (counterKeys counter).Nodup)
    (hcard : ∀ p ∈ counterKeys counter, p.card = 2) :
    counter.foldlM
      (fun mtx e =>
        match e.1.sort (fun a b => a ≤ b) with
        | [x, y] => some (dokSet (dokSet mtx x y e.2) y x e.2)
        | _ => none)
      init
    = some (fun i j =>
        if ({i, j} : Finset Int) ∈ counterKeys counter then counterGet counter {i, j}
        else init i j) := by
  induction counter generalizing init with
  | nil => simp [counterKeys, counterGet, List.foldlM]
  | cons e rest ih =>
    have hcard_e : e.1.card = 2 := by
      apply hcard e.1
      rw [counterKeys_cons]
      exact List.mem_cons_self _ _
    obtain ⟨x, y, hxy, hpe, hsort⟩ := sort_of_card_two hcard_e
    rw [counterKeys_cons, List.nodup_cons] at hnd
    have hcard_rest : ∀ p ∈ counterKeys rest, p.card = 2 := by
      intro p hp
      apply hcard p
      rw [counterKeys_cons]
      exact List.mem_cons_of_mem _ hp
    rw [List.foldlM_cons, hsort]
    have hrest := ih (dokSet (dokSet init x y e.2) y x e.2) hnd.2 hcard_rest
    show (some (dokSet (dokSet init x y e.2) y x e.2) >>= fun m => rest.foldlM _ m) = _
    simp only [Option.bind_eq_bind, Option.some_bind]
    rw [hrest]
    congr 1
    funext i j
    by_cases h1 : ({i, j} : Finset Int) ∈ counterKeys rest
    · rw [if_pos h1]
      have hne : e.1 ≠ ({i, j} : Finset Int) := fun he => hnd.1 (he ▸ h1)
      have hm : ({i, j} : Finset Int) ∈ counterKeys (e :: rest) := by
        rw [counterKeys_cons]
        exact List.mem_cons_of_mem _ h1
      rw [if_pos hm, counterGet_cons, if_neg hne]
    · rw [if_neg h1]
      by_cases h2 : ({i, j} : Finset Int) = e.1
      · have hm : ({i, j} : Finset Int) ∈ counterKeys (e :: rest) := by
          rw [counterKeys_cons]
          exact h2 ▸ List.mem_cons_self _ _
        have hpair : i = x ∧ j = y ∨ i = y ∧ j = x := by
          rw [hpe] at h2
          exact (finset_pair_eq_pair_iff i j x y).mp h2
        rw [if_pos hm, counterGet_cons, if_pos h2.symm]
        rcases hpair with ⟨hix, hjy⟩ | ⟨hiy, hjx⟩
        · subst hix; subst hjy
          unfold dokSet
          rw [if_neg (fun hc => (ne_of_lt hxy) hc.1), if_pos ⟨rfl, rfl⟩]
        · subst hiy; subst hjx
          unfold dokSet
          rw [if_pos ⟨rfl, rfl⟩]
      · have hm : ({i, j} : Finset Int) ∉ counterKeys (e :: rest) := by
          rw [counterKeys_cons, List.mem_cons]
          push_neg
          exact ⟨h2, h1⟩
        rw [if_neg hm]
        unfold dokSet
        have hyx_ne : ¬ (i = y ∧ j = x) := by
          rintro ⟨rfl, rfl⟩
          exact h2 (hpe ▸ Finset.pair_comm i j)
        have hxy_ne : ¬ (i = x ∧ j = y) := by
          rintro ⟨rfl, rfl⟩
          exact h2 (hpe ▸ rfl)
        rw [if_neg hyx_ne, if_neg hxy_ne]

theorem sparse_matrix_spec (counter : List (Finset Int × ℚ))
    (hnd : (counterKeys counter).Nodup)
    (hcard : ∀ p ∈ counterKeys counter, p.card = 2) :
    sparse_matrix counter
      = some (fun i j =>
          if ({i, j} : Finset Int) ∈ counterKeys counter then counterGet counter {i, j}
          else 0) :=
  sparse_matrix_go counter (fun _ _ => 0) hnd hcard

theorem mem_atom_contact_map (c : ContactObject) (nl : Int → List Int) (p : Finset Int) :
    p ∈ (c.contact_map nl).1 ↔
      ∃ a ∈ c.query,
        ∃ b ∈ ((nl a).toFinset \ c.residueIgnoreAtoms (c.topology.atomResidue a)) ∩ c.haystack,
          p = ({a, b} : Finset Int) := by
  simp only [ContactObject.contact_map, Finset.mem_biUnion, Finset.mem_image,
    ContactObject.queryResidues, ContactObject.residueQueryAtoms,
    ContactObject.contactNeighbors, Finset.mem_filter]
  constructor
  · rintro ⟨r, ⟨a0, ha0, rfl⟩, a, ⟨haq, har⟩, b, hb, rfl⟩
    rw [← har] at hb
    exact ⟨a, haq, b, hb, rfl⟩
  · rintro ⟨a, ha, b, hb, rfl⟩
    exact ⟨c.topology.atomResidue a, ⟨a, ha, rfl⟩, a, ⟨ha, rfl⟩, b, hb, rfl⟩

theorem mem_residue_contact_map (c : ContactObject) (nl : Int → List Int) (q : Finset Int) :
    q ∈ (c.contact_map nl).2 ↔
      ∃ a ∈ c.query,
        ∃ b ∈ ((nl a).toFinset \ c.residueIgnoreAtoms (c.topology.atomResidue a)) ∩ c.haystack,
          q = ({c.topology.atomResidue a, c.topology.atomResidue b} : Finset Int) := by
  simp only [ContactObject.contact_map, Finset.mem_biUnion, Finset.mem_image,
    ContactObject.queryResidues, ContactObject.residueQueryAtoms,
    ContactObject.contactNeighbors, Finset.mem_filter]
  constructor
  · rintro ⟨r, ⟨a0, ha0, rfl⟩, a, ⟨haq, har⟩, pr, ⟨b, hb, rfl⟩, rfl⟩
    rw [← har] at hb ⊢
    exact ⟨a, haq, b, hb, rfl⟩
  · rintro ⟨a, ha, b, hb, rfl⟩
    exact ⟨c.topology.atomResidue a, ⟨a, ha, rfl⟩, a, ⟨ha, rfl⟩,
      c.topology.atomResidue b, ⟨b, hb, rfl⟩, rfl⟩

theorem mem_residue_neighborhood_iff (r x : Int) (chain : List Int) (n : Nat) :
    x ∈ residue_neighborhood r chain n ↔
      r - (n : Int) ≤ x ∧ x ≤ r + (n : Int) ∧ x ∈ chain := by
  unfold residue_neighborhood
  simp only [Finset.mem_inter, Finset.mem_image, Finset.mem_range, List.mem_toFinset]
  constructor
  · rintro ⟨⟨i, hi, rfl⟩, hc⟩
    refine ⟨by omega, by omega, hc⟩
  · rintro ⟨h1, h2, hc⟩
    refine ⟨⟨(x - r + n).toNat, by omega, by omega⟩, hc⟩

theorem mem_ignore_of_neighborhood (c : ContactObject) (r r' x : Int)
    (hchain : r' ∈ c.topology.residueChain r)
    (hlo : r - (c.n_neighbors_ignored : Int) ≤ r')
    (hhi : r' ≤ r + (c.n_neighbors_ignored : Int))
    (hx : x ∈ c.topology.residueAtoms r') : x ∈ c.residueIgnoreAtoms r := by
  unfold ContactObject.residueIgnoreAtoms
  rw [Finset.mem_biUnion]
  exact ⟨r', (mem_residue_neighborhood_iff r r' _ _).mpr ⟨hlo, hhi, hchain⟩,
    List.mem_toFinset.mpr hx⟩

/-- Claim C4: for every frame processed by the per-frame contact-detection
algorithm, no emitted atom-pair and no emitted residue-pair contact is a
self-pair (every emitted `frozenset` pair has exactly two distinct
elements, i.e. cardinality 2, never 1 as a pair (x, x) would have); this
holds for every value of n_neighbors_ignored (a `Nat`, hence every value
at least 0) because each residue's own atoms are always in its own
exclusion set. The hypotheses are the topology-consistency facts mdtraj
guarantees: a query or haystack atom is listed among the atoms of its own
residue, and a query atom's residue is listed among the residues of its
own chain. -/
theorem contact_map_no_self_pairs (c : ContactObject) (nl : Int → List Int)
    (hq : ∀ a ∈ c.query, a ∈ c.topology.residueAtoms (c.topology.atomResidue a))
    (hh : ∀ b ∈ c.haystack, b ∈ c.topology.residueAtoms (c.topology.atomResidue b))
    (hchain : ∀ a ∈ c.query,
      c.topology.atomResidue a ∈ c.topology.residueChain (c.topology.atomResidue a)) :
    (∀ p ∈ (c.contact_map nl).1, p.card = 2) ∧
    (∀ q ∈ (c.contact_map nl).2, q.card = 2) := by
  constructor
  · intro p hp
    rw [mem_atom_contact_map] at hp
    obtain ⟨a, ha, b, hb, rfl⟩ := hp
    rw [Finset.mem_inter, Finset.mem_sdiff] at hb
    have haig : a ∈ c.residueIgnoreAtoms (c.topology.atomResidue a) :=
      mem_ignore_of_neighborhood c _ _ a (hchain a ha) (by omega) (by omega) (hq a ha)
    have hne : a ≠ b := fun he => hb.1.2 (he ▸ haig)
    exact Finset.card_pair hne
  · intro q hq2
    rw [mem_residue_contact_map] at hq2
    obtain ⟨a, ha, b, hb, rfl⟩ := hq2
    rw [Finset.mem_inter, Finset.mem_sdiff] at hb
    have hne : c.topology.atomResidue a ≠ c.topology.atomResidue b := by
      intro he
      apply hb.1.2
      exact mem_ignore_of_neighborhood c _ _ b (hchain a ha) (by omega) (by omega)
        (he ▸ hh b hb.2)
    exact Finset.card_pair hne

/-- Claim C5: for every frame, residue r with query atoms and query atom a
of r, the set of contact partners emitted for a is exactly the frame's
neighbor-candidate list of a as a set, minus r's precomputed excluded-atom
set, intersected with the haystack (first and second conjuncts);
consequently every reported contact pairs a query atom with a haystack
atom (third conjunct), and no contact is ever reported between a query
atom of r and any atom of a residue within n_neighbors_ignored
chain-positions of r on r's chain, regardless of haystack membership
(fourth conjunct). Hypotheses are the mdtraj topology-consistency facts:
atoms are listed in their own residue, and chain membership is symmetric
between residues of one chain. -/
theorem contact_map_partner_spec (c : ContactObject) (nl : Int → List Int)
    (hq : ∀ a ∈ c.query, a ∈ c.topology.residueAtoms (c.topology.atomResidue a))
    (hh : ∀ b ∈ c.haystack, b ∈ c.topology.residueAtoms (c.topology.atomResidue b))
    (hsym : ∀ a ∈ c.query, ∀ x ∈ c.topology.residueChain (c.topology.atomResidue a),
      c.topology.atomResidue a ∈ c.topology.residueChain x) :
    (∀ r a, r ∈ c.queryResidues → a ∈ c.residueQueryAtoms r →
      c.contactNeighbors nl r a =
        ((nl a).toFinset \ c.residueIgnoreAtoms r) ∩ c.haystack) ∧
    (∀ p, p ∈ (c.contact_map nl).1 ↔
      ∃ a ∈ c.query, ∃ b ∈ c.contactNeighbors nl (c.topology.atomResidue a) a,
        p = ({a, b} : Finset Int)) ∧
    (∀ p ∈ (c.contact_map nl).1, ∃ a b, p = ({a, b} : Finset Int) ∧
      a ∈ c.query ∧ b ∈ c.haystack) ∧
    (∀ a b r', a ∈ c.query →
      r' ∈ c.topology.residueChain (c.topology.atomResidue a) →
      (r' - c.topology.atomResidue a).natAbs ≤ c.n_neighbors_ignored →
      c.topology.atomResidue b = r' →
      ({a, b} : Finset Int) ∉ (c.contact_map nl).1) := by
  refine ⟨fun r a _ _ => rfl, fun p => mem_atom_contact_map c nl p, ?_, ?_⟩
  · intro p hp
    rw [mem_atom_contact_map] at hp
    obtain ⟨a, ha, b, hb, rfl⟩ := hp
    rw [Finset.mem_inter] at hb
    exact ⟨a, b, rfl, ha, hb.2⟩
  · intro a b r' ha hchain habs hres hmem
    rw [mem_atom_contact_map] at hmem
    obtain ⟨q, hqmem, m, hm, hpair⟩ := hmem
    rw [Finset.mem_inter, Finset.mem_sdiff] at hm
    rcases (finset_pair_eq_pair_iff a b q m).mp hpair with ⟨rfl, rfl⟩ | ⟨rfl, rfl⟩
    · exact hm.1.2 (mem_ignore_of_neighborhood c _ r' b hchain (by omega) (by omega)
        (hres ▸ hh b hm.2))
    · apply hm.1.2
      apply mem_ignore_of_neighborhood c (c.topology.atomResidue b)
        (c.topology.atomResidue a) a
      · rw [hres]
        exact hsym a ha r' hchain
      · omega
      · omega
      · exact hq a ha

theorem tally_foldl_go (g : Nat → Finset (Finset Int)) (frames : List Nat)
    (acc : Finset Int → Nat) (p : Finset Int) :
    (frames.foldl (fun acc f => fun p => acc p + (if p ∈ g f then 1 else 0)) acc) p
      = acc p + frames.countP (fun f => decide (p ∈ g f)) := by
  induction frames generalizing acc with
  | nil => simp
  | cons f rest ih =>
    rw [List.foldl_cons, ih, List.countP_cons]
    by_cases h : p ∈ g f <;> simp [h] <;> omega

theorem build_atom_tally_eq_countP (c : ContactObject)
    (nls : Nat → Int → List Int) (frames : List Nat) (p : Finset Int) :
    build_atom_tally c nls frames p
      = frames.countP (fun f => decide (p ∈ (c.contact_map (nls f)).1)) := by
  unfold build_atom_tally
  rw [tally_foldl_go (fun f => (c.contact_map (nls f)).1) frames (fun _ => 0) p]
  exact Nat.zero_add _

theorem build_residue_tally_eq_countP (c : ContactObject)
    (nls : Nat → Int → List Int) (frames : List Nat) (p : Finset Int) :
    build_residue_tally c nls frames p
      = frames.countP (fun f => decide (p ∈ (c.contact_map (nls f)).2)) := by
  unfold build_residue_tally
  rw [tally_foldl_go (fun f => (c.contact_map (nls f)).2) frames (fun _ => 0) p]
  exact Nat.zero_add _

theorem tally_le_length (c : ContactObject) (nls : Nat → Int → List Int)
    (frames : List Nat) (p : Finset Int) :
    build_atom_tally c nls frames p ≤ frames.length := by
  rw [build_atom_tally_eq_countP]
  exact List.countP_le_length _

theorem frequency_nonneg_le_one (tally len : Nat) (hle : tally ≤ len) :
    0 ≤ (tally : ℚ) / (len : ℚ) ∧ (tally : ℚ) / (len : ℚ) ≤ 1 := by
  constructor
  · exact div_nonneg (by positivity) (by positivity)
  · rcases Nat.eq_zero_or_pos len with h0 | hpos
    · subst h0
      simp
    · rw [div_le_one (by positivity)]
      exact_mod_cast hle

end StructuralLemmas
section ClaimTheorems

/-- Claim C1: for every pair of contact objects P (positive) and N
(negative), the difference object's atom-level and residue-level contact
maps assign to every pair in the union of the two operands' key sets the
value P's count minus N's count (a pair absent from one operand counts as
0 there); the difference's key set is exactly that union, and the
difference of an object with itself maps every pair of its key set to 0.
The hypotheses say the operands' counters have no duplicate keys, which
is true of every Python dict/Counter. -/
theorem contact_difference_is_pointwise_subtraction (P N : ContactData)
    (hna : (counterKeys N.atomCounter).Nodup)
    (hnr : (counterKeys N.resCounter).Nodup)
    (hpa : (counterKeys P.atomCounter).Nodup)
    (hpr : (counterKeys P.resCounter).Nodup) :
    (∀ k, counterGet (ContactDifference.init P N).atom_contacts k
        = counterGet P.atomCounter k - counterGet N.atomCounter k) ∧
    (∀ k, k ∈ counterKeys (ContactDifference.init P N).atom_contacts ↔
        k ∈ counterKeys P.atomCounter ∨ k ∈ counterKeys N.atomCounter) ∧
    (∀ k, counterGet (ContactDifference.init P N).residue_contacts k
        = counterGet P.resCounter k - counterGet N.resCounter k) ∧
    (∀ k, k ∈ counterKeys (ContactDifference.init P N).residue_contacts ↔
        k ∈ counterKeys P.resCounter ∨ k ∈ counterKeys N.resCounter) ∧
    (∀ k, k ∈ counterKeys P.atomCounter →
        counterGet (ContactDifference.init P P).atom_contacts k = 0) ∧
    (∀ k, k ∈ counterKeys P.resCounter →
        counterGet (ContactDifference.init P P).residue_contacts k = 0) := by
  refine ⟨fun k => counterGet_counterSubtract _ _ hna k,
    fun k => mem_counterKeys_counterSubtract _ _ k,
    fun k => counterGet_counterSubtract _ _ hnr k,
    fun k => mem_counterKeys_counterSubtract _ _ k,
    fun k _ => ?_, fun k _ => ?_⟩
  · rw [show (ContactDifference.init P P).atom_contacts
        = counterSubtract P.atomCounter P.atomCounter from rfl,
      counterGet_counterSubtract _ _ hpa k]
    ring
  · rw [show (ContactDifference.init P P).residue_contacts
        = counterSubtract P.resCounter P.resCounter from rfl,
      counterGet_counterSubtract _ _ hpr k]
    ring

/-- Witness for claim C1 at concrete operands. -/
theorem contact_difference_is_pointwise_subtraction_witness :
    ((counterKeys exDataN.atomCounter).Nodup ∧
     (counterKeys exDataN.resCounter).Nodup ∧
     (counterKeys exDataP.atomCounter).Nodup ∧
     (counterKeys exDataP.resCounter).Nodup) ∧
    counterGet (ContactDifference.init exDataP exDataN).atom_contacts {0, 2}
      = counterGet exDataP.atomCounter {0, 2} - counterGet exDataN.atomCounter {0, 2} :=
  ⟨⟨by decide, by decide, by decide, by decide⟩,
   (contact_difference_is_pointwise_subtraction exDataP exDataN
      (by decide) (by decide) (by decide) (by decide)).1 {0, 2}⟩

/-- Claim C2: for every multi-frame aggregation, the exposed frequency of
every atom or residue pair equals its integer tally (the number of
processed frames in which the pair was in contact) divided by the number
of frames processed; every frequency lies in [0, 1]; a pair in contact in
all processed frames has frequency exactly 1; and a pair never in contact
has tally 0 and frequency 0 (the Python counter simply has no entry for
it, and a missing Counter key reads as 0). -/
theorem contact_frequency_spec (c : ContactObject)
    (nls : Nat → Int → List Int) (frames : List Nat) :
    (∀ p, atom_frequency c nls frames p
        = ((frames.countP (fun f => decide (p ∈ (c.contact_map (nls f)).1)) : ℚ)
            / (frames.length : ℚ))) ∧
    (∀ p, 0 ≤ atom_frequency c nls frames p ∧ atom_frequency c nls frames p ≤ 1) ∧
    (∀ p, frames ≠ [] → (∀ f ∈ frames, p ∈ (c.contact_map (nls f)).1) →
        atom_frequency c nls frames p = 1) ∧
    (∀ p, (∀ f ∈ frames, p ∉ (c.contact_map (nls f)).1) →
        build_atom_tally c nls frames p = 0 ∧ atom_frequency c nls frames p = 0) ∧
    (∀ p, residue_frequency c nls frames p
        = ((frames.countP (fun f => decide (p ∈ (c.contact_map (nls f)).2)) : ℚ)
            / (frames.length : ℚ))) ∧
    (∀ p, 0 ≤ residue_frequency c nls frames p ∧ residue_frequency c nls frames p ≤ 1) ∧
    (∀ p, frames ≠ [] → (∀ f ∈ frames, p ∈ (c.contact_map (nls f)).2) →
        residue_frequency c nls frames p = 1) ∧
    (∀ p, (∀ f ∈ frames, p ∉ (c.contact_map (nls f)).2) →
        build_residue_tally c nls frames p = 0 ∧ residue_frequency c nls frames p = 0) := by
  refine ⟨?_, ?_, ?_, ?_, ?_, ?_, ?_, ?_⟩
  all_goals intro p
  · unfold atom_frequency
    rw [build_atom_tally_eq_countP]
  · unfold atom_frequency
    exact frequency_nonneg_le_one _ _
      (by rw [build_atom_tally_eq_countP]; exact List.countP_le_length _)
  · intro hne hall
    unfold atom_frequency
    rw [build_atom_tally_eq_countP,
      List.countP_eq_length.mpr (fun f hf => decide_eq_true (hall f hf))]
    exact div_self (by exact_mod_cast List.length_pos.mpr hne |>.ne.symm)
  · intro hnone
    have h0 : build_atom_tally c nls frames p = 0 := by
      rw [build_atom_tally_eq_countP]
      exact List.countP_eq_zero.mpr
        (fun f hf => by simp [hnone f hf])
    exact ⟨h0, by unfold atom_frequency; rw [h0]; simp⟩
  · unfold residue_frequency
    rw [build_residue_tally_eq_countP]
  · unfold residue_frequency
    exact frequency_nonneg_le_one _ _
      (by rw [build_residue_tally_eq_countP]; exact List.countP_le_length _)
  · intro hne hall
    unfold residue_frequency
    rw [build_residue_tally_eq_countP,
      List.countP_eq_length.mpr (fun f hf => decide_eq_true (hall f hf))]
    exact div_self (by exact_mod_cast List.length_pos.mpr hne |>.ne.symm)
  · intro hnone
    have h0 : build_residue_tally c nls frames p = 0 := by
      rw [build_residue_tally_eq_countP]
      exact List.countP_eq_zero.mpr
        (fun f hf => by simp [hnone f hf])
    exact ⟨h0, by unfold residue_frequency; rw [h0]; simp⟩

/-- Witness for claim C2: in a two-frame trajectory where the pair
(atom 0, atom 2) is in contact in both frames, its exposed frequency is
exactly 1. -/
theorem contact_frequency_spec_witness :
    (([0, 1] : List Nat) ≠ [] ∧
     (∀ f ∈ ([0, 1] : List Nat), ({0, 2} : Finset Int) ∈ (exObj.contact_map (exNls f)).1)) ∧
    atom_frequency exObj exNls [0, 1] {0, 2} = 1 :=
  ⟨⟨by decide, by decide⟩,
   (contact_frequency_spec exObj exNls [0, 1]).2.2.1 {0, 2} (by decide) (by decide)⟩

/-- Claim C3: for every trajectory and every permutation of the configured
frame sequence, aggregating the frames in the permuted order produces
exactly the same final atom-level and residue-level tallies, and hence the
same frequencies, as the original order (the fold adds each frame's
indicator counter, and addition is commutative; the frame count is also
permutation-invariant). -/
theorem aggregation_order_independent (c : ContactObject)
    (nls : Nat → Int → List Int) (frames frames2 : List Nat)
    (hperm : frames.Perm frames2) :
    (∀ p, build_atom_tally c nls frames p = build_atom_tally c nls frames2 p) ∧
    (∀ p, build_residue_tally c nls frames p = build_residue_tally c nls frames2 p) ∧
    (∀ p, atom_frequency c nls frames p = atom_frequency c nls frames2 p) ∧
    (∀ p, residue_frequency c nls frames p = residue_frequency c nls frames2 p) := by
  have hatom : ∀ p, build_atom_tally c nls frames p = build_atom_tally c nls frames2 p := by
    intro p
    rw [build_atom_tally_eq_countP, build_atom_tally_eq_countP, hperm.countP_eq]
  have hres : ∀ p, build_residue_tally c nls frames p = build_residue_tally c nls frames2 p := by
    intro p
    rw [build_residue_tally_eq_countP, build_residue_tally_eq_countP, hperm.countP_eq]
  refine ⟨hatom, hres, fun p => ?_, fun p => ?_⟩
  · unfold atom_frequency
    rw [hatom p, hperm.length_eq]
  · unfold residue_frequency
    rw [hres p, hperm.length_eq]

/-- Witness for claim C3 at a concrete two-frame permutation. -/
theorem aggregation_order_independent_witness :
    (([0, 1] : List Nat).Perm [1, 0]) ∧
    build_atom_tally exObj exNls [0, 1] {0, 2}
      = build_atom_tally exObj exNls [1, 0] {0, 2} :=
  ⟨by decide,
   (aggregation_order_independent exObj exNls [0, 1] [1, 0] (by decide)).1 {0, 2}⟩

/-- Witness for claim C4 at a concrete frame: the consistency hypotheses
hold for the example topology and every emitted pair has two distinct
elements. -/
theorem contact_map_no_self_pairs_witness :
    ((∀ a ∈ exObj.query, a ∈ exObj.topology.residueAtoms (exObj.topology.atomResidue a)) ∧
     (∀ b ∈ exObj.haystack, b ∈ exObj.topology.residueAtoms (exObj.topology.atomResidue b)) ∧
     (∀ a ∈ exObj.query,
        exObj.topology.atomResidue a ∈ exObj.topology.residueChain (exObj.topology.atomResidue a))) ∧
    (∀ p ∈ (exObj.contact_map exNl).1, p.card = 2) :=
  ⟨⟨by decide, by decide, by decide⟩,
   (contact_map_no_self_pairs exObj exNl (by decide) (by decide) (by decide)).1⟩

/-- Witness for claim C5 at a concrete frame: atom 1 belongs to residue 0,
the residue of query atom 0 itself, so the pair (0, 1) is never reported
even though atom 1 is in atom 0's neighbor-candidate list. -/
theorem contact_map_partner_spec_witness :
    ((∀ a ∈ exObj.query, a ∈ exObj.topology.residueAtoms (exObj.topology.atomResidue a)) ∧
     (∀ b ∈ exObj.haystack, b ∈ exObj.topology.residueAtoms (exObj.topology.atomResidue b)) ∧
     (∀ a ∈ exObj.query, ∀ x ∈ exObj.topology.residueChain (exObj.topology.atomResidue a),
        exObj.topology.atomResidue a ∈ exObj.topology.residueChain x)) ∧
    ({0, 1} : Finset Int) ∉ (exObj.contact_map exNl).1 :=
  ⟨⟨by decide, by decide, by decide⟩,
   (contact_map_partner_spec exObj exNl (by decide) (by decide) (by decide)).2.2.2
     0 1 0 (by decide) (by decide) (by decide) (by decide)⟩

theorem counterGet_eq_of_mem (c : List (Finset Int × ℚ)) (p : Finset Int) (v : ℚ)
    (hnd : (counterKeys c).Nodup) (h : (p, v) ∈ c) :
    counterGet c p = v := by
  induction c with
  | nil => simp at h
  | cons e rest ih =>
    rw [counterKeys_cons, List.nodup_cons] at hnd
    rcases List.mem_cons.mp h with rfl | hmem
    · rw [counterGet_cons, if_pos rfl]
    · have hne : e.1 ≠ p := fun he =>
        hnd.1 (he ▸ List.mem_map_of_mem Prod.fst hmem)
      rw [counterGet_cons, if_neg hne, ih hnd.2 hmem]

/-- Claim C6: for every contact count map whose keys are genuine unordered
pairs (two distinct indices each, no duplicate keys — which is what the
contact pipeline produces), the exported sparse matrix exists and is
exactly symmetric: for every stored pair both cells (i, j) and (j, i)
equal the stored value, and every other cell is 0. -/
theorem sparse_matrix_symmetric (counter : List (Finset Int × ℚ))
    (hnd : (counterKeys counter).Nodup)
    (hcard : ∀ p ∈ counterKeys counter, p.card = 2) :
    ∃ M, sparse_matrix counter = some M ∧
      (∀ i j, M i j = M j i) ∧
      (∀ p v, (p, v) ∈ counter → ∀ i j, p = ({i, j} : Finset Int) →
        M i j = v ∧ M j i = v) ∧
      (∀ i j, ({i, j} : Finset Int) ∉ counterKeys counter → M i j = 0) := by
  refine ⟨fun i j =>
      if ({i, j} : Finset Int) ∈ counterKeys counter then counterGet counter {i, j} else 0,
    sparse_matrix_spec counter hnd hcard, fun i j => ?_, ?_, fun i j h => ?_⟩
  · simp only
    rw [show ({j, i} : Finset Int) = {i, j} from Finset.pair_comm j i]
  · intro p v hpv i j hp
    have hkey : ({i, j} : Finset Int) ∈ counterKeys counter :=
      hp ▸ List.mem_map_of_mem Prod.fst hpv
    have hget : counterGet counter {i, j} = v :=
      hp ▸ counterGet_eq_of_mem counter p v hnd hpv
    constructor
    · simp only
      rw [if_pos hkey, hget]
    · simp only
      rw [show ({j, i} : Finset Int) = {i, j} from Finset.pair_comm j i,
        if_pos hkey, hget]
  · simp only
    rw [if_neg h]

/-- Witness for claim C6 at a concrete one-entry counter. -/
theorem sparse_matrix_symmetric_witness :
    ((counterKeys [(({0, 1} : Finset Int), (3 : ℚ))]).Nodup ∧
     (∀ p ∈ counterKeys [(({0, 1} : Finset Int), (3 : ℚ))], p.card = 2)) ∧
    (∃ M, sparse_matrix [(({0, 1} : Finset Int), (3 : ℚ))] = some M ∧
      (∀ i j, M i j = M j i) ∧
      (∀ p v, (p, v) ∈ [(({0, 1} : Finset Int), (3 : ℚ))] →
        ∀ i j, p = ({i, j} : Finset Int) → M i j = v ∧ M j i = v) ∧
      (∀ i j, ({i, j} : Finset Int) ∉ counterKeys [(({0, 1} : Finset Int), (3 : ℚ))] →
        M i j = 0)) :=
  ⟨⟨by decide, by decide⟩,
   sparse_matrix_symmetric [(({0, 1} : Finset Int), (3 : ℚ))] (by decide) (by decide)⟩

/-- Claim C7 counterexample: a contact count map whose insertion order is
(pair (2,3), weight 1) then (pair (0,1), weight 1) is sorted by
`most_common` into that same order (the sort is stable), although the
natural pair order would put (0,1) first; so ties are not broken by
first-then-second index ascending. -/
theorem most_common_tie_break_counterexample :
    (counterKeys [(({2, 3} : Finset Int), (1 : ℚ)), ({0, 1}, 1)]).Nodup ∧
    pairLexLt {0, 1} {2, 3} = true ∧
    most_common_idx [(({2, 3} : Finset Int), (1 : ℚ)), ({0, 1}, 1)]
      = [({2, 3}, 1), ({0, 1}, 1)] ∧
    tiesByPairOrder
      (most_common_idx [(({2, 3} : Finset Int), (1 : ℚ)), ({0, 1}, 1)]) = false :=
  ⟨by decide, by decide, by decide, by decide⟩

/-- Claim C7 (amended): the ranked most-common query returns the counter's
entries sorted by descending weight, with ties left in the counter's
insertion order (the sort is stable: within each weight the entries keep
their original relative order), so the output is deterministic and
identical across repeated runs on the same input; when an object is
given, the output is the order-preserving restriction (a sublist of the
unfiltered output) to pairs containing that object's index. -/
theorem most_common_sorted_stable (c : List (Finset Int × ℚ)) :
    (most_common_idx c).Perm c ∧
    (most_common_idx c).Pairwise (fun a b => b.2 ≤ a.2) ∧
    (∀ q, (most_common_idx c).filter (fun e => e.2 = q)
        = c.filter (fun e => e.2 = q)) ∧
    (∀ (α : Type) (object_f : Int → α) (i : Int),
      (most_common_with_obj object_f c i).Sublist (most_common_no_obj object_f c)) := by
  refine ⟨most_common_idx_perm c, most_common_idx_pairwise c,
    most_common_idx_stable c, ?_⟩
  intro α f i
  unfold most_common_with_obj most_common_no_obj
  exact (List.filter_sublist _).map _

/-- Claim C8 counterexample: constructing with an empty query set, an
empty haystack set and a negative cutoff succeeds, as does constructing
with atom indices far outside the 4-atom example topology and cutoff 0 —
no ConfigurationError (nor any error) is raised at construction time. -/
theorem contact_object_init_accepts_invalid :
    exceptOk (ContactObject.init exTopology ∅ ∅ (-1) 2) = true ∧
    exceptOk (ContactObject.init exTopology {100} {200} 0 2) = true :=
  ⟨rfl, rfl⟩

/-- Claim C8 (amended): `ContactObject.__init__` performs no validation at
all: for every topology, query and haystack set (including empty sets and
out-of-range indices) and every cutoff (including non-positive ones),
construction succeeds and stores exactly the given parameters; no
ConfigurationError exists in the code and nothing is raised eagerly. -/
theorem contact_object_init_never_raises (t : Topology) (q h : Finset Int)
    (cutoff : ℚ) (n : Nat) :
    ContactObject.init t q h cutoff n
      = Except.ok { topology := t, query := q, haystack := h,
                    cutoff := cutoff, n_neighbors_ignored := n } := rfl

/-- Claim C9: on a difference object, subtracting anything always raises
NotImplementedError, and invoking the per-frame contact-detection
algorithm always raises NotImplementedError; each method body is a bare
raise, so neither operation is ever attempted or partially performed. -/
theorem contact_difference_operations_always_raise (d : ContactDifference) :
    (∀ other, d.sub other = Except.error "NotImplementedError") ∧
    (∀ nl, d.contact_map nl = Except.error "NotImplementedError") :=
  ⟨fun _ => rfl, fun _ => rfl⟩

/-- Claim C10: the difference object constructed as P minus N takes its
topology, query set, haystack set, cutoff and n_neighbors_ignored
exclusively from the positive operand P; the negative operand's values of
these parameters have no effect on the constructed configuration, and no
compatibility check between the operands is performed (the constructor is
total and succeeds for every pair of operands). -/
theorem contact_difference_config_from_positive (P N : ContactData) :
    ((ContactDifference.init P N).base.topology = P.obj.topology ∧
     (ContactDifference.init P N).base.query = P.obj.query ∧
     (ContactDifference.init P N).base.haystack = P.obj.haystack ∧
     (ContactDifference.init P N).base.cutoff = P.obj.cutoff ∧
     (ContactDifference.init P N).base.n_neighbors_ignored = P.obj.n_neighbors_ignored) ∧
    (∀ N2, (ContactDifference.init P N).base = (ContactDifference.init P N2).base) :=
  ⟨⟨rfl, rfl, rfl, rfl, rfl⟩, fun _ => rfl⟩

end ClaimTheorems
